import Mathlib

/-!
Shallow embedding of the bacify backup verifier (src/main.rs) and proofs of
the specified properties of its verification engine.

Paths are modelled as lists of components, mirroring the component view that
Rust's `Path::starts_with`, `Path::strip_prefix` and `Path::join` operate on.
The filesystem is modelled as a record of total functions returning `Except`
values for the fallible calls (`fs::metadata`, `Metadata::created`,
`sha256` streaming); `Path::is_file` is modelled as a boolean query.
The `expect("Could not strip prefix")` panic in `verify_source_file` is
modelled as the distinguished `pathError` outcome: a failure of the
relative-path stripping step, distinct from propagated I/O errors.
-/

namespace Bacify

/-- A path component, mirroring the components of a Rust `Path` on Unix:
the root-directory marker, or a normal named component. Dot components are
treated as named components; no property proved here exercises them. -/
inductive Component where
  | root : Component
  | name : String → Component
deriving DecidableEq

/-- A filesystem path, as its list of components (the view that
`Path::components` presents and on which `starts_with`, `strip_prefix` and
`join` operate). -/
abbrev FsPath := List Component

/-- Rust `Path::starts_with`: `base` is a component-wise prefix of `file`.
Whole path components must match; an empty `base` is a prefix of every path. -/
def FsPath.startsWith (file base : FsPath) : Bool :=
  match base, file with
  | [], _ => true
  | _ :: _, [] => false
  | b :: bs, c :: cs => if b = c then FsPath.startsWith cs bs else false

/-- Rust `Path::strip_prefix`: remove the leading components `base` from `p`,
or fail when `base` is not a component-wise prefix of `p`. -/
def stripPrefixPath (p base : FsPath) : Option FsPath :=
  match base, p with
  | [], _ => some p
  | _ :: _, [] => none
  | b :: bs, c :: cs => if b = c then stripPrefixPath cs bs else none

/-- Rust `Path::join`: joining an absolute path replaces the base entirely
(see the comment at src/main.rs lines 68-71); otherwise the components are
appended. -/
def pathJoin (base p : FsPath) : FsPath :=
  match p with
  | Component.root :: _ => p
  | _ => base ++ p

/-- Splitting a character list at every occurrence of a separator character.
This is the single-character case of Rust's `str::split`, written by
structural recursion so that it evaluates by `decide`. -/
def splitChar (sep : Char) : List Char → List (List Char)
  | [] => [[]]
  | c :: rest =>
    if c = sep then [] :: splitChar sep rest
    else
      match splitChar sep rest with
      | [] => [[c]]
      | l :: ls => (c :: l) :: ls

/-- Parsing a pattern string into path components, as `Path::new` does on
Unix for the strings this program feeds it: a leading `/` contributes the
root component, and the remaining non-empty `/`-separated segments become
named components (repeated and trailing separators are dropped, as in Rust's
component normalisation). The empty string parses to the empty path. -/
def parsePath (s : String) : FsPath :=
  let segs := (splitChar '/' s.data).filter (fun l => l ≠ [])
  let names := segs.map (fun l => Component.name (List.asString l))
  match s.data with
  | '/' :: _ => Component.root :: names
  | _ => names

/-- Rust `str::lines`: split the contents at every newline, drop the
optional final line terminator, and trim a trailing carriage return from
each line. Blank lines in the middle of the contents yield empty strings. -/
def rustLines (s : String) : List String :=
  let parts := splitChar '\n' s.data
  let parts := if parts.getLast? = some [] then parts.dropLast else parts
  parts.map (fun l =>
    if l.getLast? = some '\r' then List.asString l.dropLast else List.asString l)

/-- The outcome of `fs::read_to_string` on the excludes file: contents, a
not-found error, or another I/O error. -/
inductive ReadResult where
  | ok : String → ReadResult
  | notFound : ReadResult
  | otherError : String → ReadResult
deriving DecidableEq

/-- `BackupVerifier::load_excludes` (src/main.rs lines 109-117): the lines of
the file when it reads, the empty list when the file does not exist, and the
error propagated otherwise. -/
def load_excludes : ReadResult → Except String (List String)
  | ReadResult.ok contents => Except.ok (rustLines contents)
  | ReadResult.notFound => Except.ok []
  | ReadResult.otherError e => Except.error e

/-- `BackupVerifier::excluded` (src/main.rs lines 42-49): some configured
pattern, viewed as a path, is a component-wise prefix of the file
(`file.starts_with(exclude)`). -/
def excluded (excludes : List String) (file : FsPath) : Bool :=
  excludes.any (fun exclude => FsPath.startsWith file (parsePath exclude))

/-- The immutable part of `BackupVerifier` during one verification run:
the restore target, the snapshot's creation time, the snapshot's source
root, the exclude patterns, and the relative-path flag. -/
structure Config where
  backup_dir : FsPath
  backup_time : Int
  source_dir : FsPath
  excludes : List String
  relative_path : Bool

/-- The mutable accumulation state of `BackupVerifier`: the sets of missing
and corrupt paths. -/
structure VState where
  missing : Finset FsPath
  corrupt : Finset FsPath
deriving DecidableEq

instance {ε α : Type} [DecidableEq ε] [DecidableEq α] : DecidableEq (Except ε α) := fun x y =>
  match x, y with
  | Except.ok a, Except.ok b =>
    if h : a = b then Decidable.isTrue (by rw [h])
    else Decidable.isFalse (fun hh => by cases hh; exact h rfl)
  | Except.error a, Except.error b =>
    if h : a = b then Decidable.isTrue (by rw [h])
    else Decidable.isFalse (fun hh => by cases hh; exact h rfl)
  | Except.ok _, Except.error _ => Decidable.isFalse (fun hh => by cases hh)
  | Except.error _, Except.ok _ => Decidable.isFalse (fun hh => by cases hh)

/-- What `fs::metadata` returns, as the engine consumes it: the modification
time, and the (fallible on some platforms) creation time. -/
structure Meta where
  modified : Int
  created : Except String Int
deriving DecidableEq

/-- The filesystem as the verifier observes it during one run: whether a
path is a regular file, its metadata, and its SHA-256 digest (abstracted to
the digest value; `BackupVerifier::sha256` only ever compares digests for
equality). -/
structure FS where
  is_file : FsPath → Bool
  metadata : FsPath → Except String Meta
  sha256 : FsPath → Except String Nat

/-- How classifying one file can fail: a propagated I/O error, or the
failure of relative-path stripping (`expect("Could not strip prefix")`,
src/main.rs line 66). -/
inductive VErr where
  | ioError : String → VErr
  | pathError : VErr
deriving DecidableEq

/-- The per-file classification outcome named by the specification. The Rust
code does not reify this type; it is determined by which branch of
`verify_source_file` runs, and the embedding returns it alongside the state. -/
inductive Verdict where
  | matched : Verdict
  | corrupt : Verdict
  | missing : Verdict
  | skipped : Verdict
deriving DecidableEq

/-- The relative-path computation at the head of `verify_source_file`
(src/main.rs lines 64-72): with `--relative-path`, strip the source root
(panicking - modelled as `pathError` - when the file is not under it);
otherwise strip a single leading root component when present. -/
def relative_file_of (cfg : Config) (file : FsPath) : Except VErr FsPath :=
  if cfg.relative_path then
    match stripPrefixPath file cfg.source_dir with
    | some r => Except.ok r
    | none => Except.error VErr.pathError
  else
    Except.ok ((stripPrefixPath file [Component.root]).getD file)

/-- The restored counterpart's path for a live file: the relative path
joined under the restore target (src/main.rs line 73). -/
def counterpart_of (cfg : Config) (file : FsPath) : Except VErr FsPath :=
  match relative_file_of cfg file with
  | Except.ok r => Except.ok (pathJoin cfg.backup_dir r)
  | Except.error e => Except.error e

/-- `BackupVerifier::verify_source_file` (src/main.rs lines 60-107). The
result carries the specification's verdict for the branch taken, the updated
missing/corrupt state, and the list of paths whose content was hashed (so
that lazy hashing is visible in the model). Each Rust `?` is an explicit
match that propagates the error; set mutations happen exactly where the Rust
code calls `insert`. -/
def verify_source_file (fs : FS) (cfg : Config) (st : VState) (file : FsPath) :
    Except VErr (Verdict × VState × List FsPath) :=
  match relative_file_of cfg file with
  | Except.error e => Except.error e
  | Except.ok relative_file =>
    let counterpart := pathJoin cfg.backup_dir relative_file
    match fs.metadata file with
    | Except.error e => Except.error (VErr.ioError e)
    | Except.ok file_metadata =>
      match file_metadata.created with
      | Except.error e => Except.error (VErr.ioError e)
      | Except.ok file_birthtime =>
        if fs.is_file counterpart then
          match fs.metadata counterpart with
          | Except.error e => Except.error (VErr.ioError e)
          | Except.ok counterpart_metadata =>
            if file_metadata.modified = counterpart_metadata.modified then
              match fs.sha256 file with
              | Except.error e => Except.error (VErr.ioError e)
              | Except.ok file_sha256 =>
                match fs.sha256 counterpart with
                | Except.error e => Except.error (VErr.ioError e)
                | Except.ok counterpart_sha256 =>
                  if file_sha256 = counterpart_sha256 then
                    Except.ok (Verdict.matched, st, [file, counterpart])
                  else
                    Except.ok (Verdict.corrupt,
                      { st with corrupt := insert file st.corrupt },
                      [file, counterpart])
            else
              Except.ok (Verdict.matched, st, [])
        else if file_birthtime ≤ cfg.backup_time then
          Except.ok (Verdict.missing,
            { st with missing := insert file st.missing }, [])
        else
          Except.ok (Verdict.skipped, st, [])

/-- The decision procedure of `verify_source_file` with the state and hash
log projected away: the verdict alone. Used to state invariants about which
branch a given file takes under a fixed filesystem. -/
def classify (fs : FS) (cfg : Config) (file : FsPath) : Except VErr Verdict :=
  match relative_file_of cfg file with
  | Except.error e => Except.error e
  | Except.ok relative_file =>
    let counterpart := pathJoin cfg.backup_dir relative_file
    match fs.metadata file with
    | Except.error e => Except.error (VErr.ioError e)
    | Except.ok file_metadata =>
      match file_metadata.created with
      | Except.error e => Except.error (VErr.ioError e)
      | Except.ok file_birthtime =>
        if fs.is_file counterpart then
          match fs.metadata counterpart with
          | Except.error e => Except.error (VErr.ioError e)
          | Except.ok counterpart_metadata =>
            if file_metadata.modified = counterpart_metadata.modified then
              match fs.sha256 file with
              | Except.error e => Except.error (VErr.ioError e)
              | Except.ok file_sha256 =>
                match fs.sha256 counterpart with
                | Except.error e => Except.error (VErr.ioError e)
                | Except.ok counterpart_sha256 =>
                  if file_sha256 = counterpart_sha256 then
                    Except.ok Verdict.matched
                  else
                    Except.ok Verdict.corrupt
            else
              Except.ok Verdict.matched
        else if file_birthtime ≤ cfg.backup_time then
          Except.ok Verdict.missing
        else
          Except.ok Verdict.skipped

/-- `BackupVerifier::verify` (src/main.rs lines 192-206) over the walk's
entry stream: erroneous walk entries are dropped by `filter_map(|e| e.ok())`,
non-files and excluded files are skipped, and every other file is classified,
with a classification error aborting the loop. The state reached so far is
returned alongside the outcome. -/
def verify (fs : FS) (cfg : Config) :
    VState → List (Except String FsPath) → VState × Except VErr Unit
  | st, [] => (st, Except.ok ())
  | st, Except.error _ :: rest => verify fs cfg st rest
  | st, Except.ok p :: rest =>
    if fs.is_file p then
      if excluded cfg.excludes p then verify fs cfg st rest
      else
        match verify_source_file fs cfg st p with
        | Except.error e => (st, Except.error e)
        | Except.ok (_, st', _) => verify fs cfg st' rest
    else verify fs cfg st rest

/-- `BackupVerifier::verdict` (src/main.rs lines 208-227): the collection of
paths warned about (every missing path, then every corrupt path, each
enumerated only when its set is non-empty; a multiset because `HashSet`
iteration order is unspecified) and the final result, which is the aggregate
failure as soon as either set is non-empty. -/
def verdict (st : VState) : Multiset FsPath × Except String Unit :=
  let result : Except String Unit := Except.ok ()
  let (log_missing, result) :=
    if st.missing = (∅ : Finset FsPath) then ((0 : Multiset FsPath), result)
    else (st.missing.val, (Except.error "Verification failed" : Except String Unit))
  let (log_corrupt, result) :=
    if st.corrupt = (∅ : Finset FsPath) then ((0 : Multiset FsPath), result)
    else (st.corrupt.val, (Except.error "Verification failed" : Except String Unit))
  (log_missing + log_corrupt, result)

/-! Shared lemmas about the path primitives. -/

theorem startsWith_nil_base (p : FsPath) : FsPath.startsWith p [] = true := by
  cases p <;> rfl

theorem startsWith_nil_file (b : Component) (bs : FsPath) :
    FsPath.startsWith [] (b :: bs) = false := rfl

theorem startsWith_cons_cons (b c : Component) (bs cs : FsPath) :
    FsPath.startsWith (c :: cs) (b :: bs) =
      if b = c then FsPath.startsWith cs bs else false := rfl

theorem startsWith_iff_append (p base : FsPath) :
    FsPath.startsWith p base = true ↔ ∃ rest, p = base ++ rest := by
  induction base generalizing p with
  | nil =>
    rw [startsWith_nil_base]
    constructor
    · intro _; exact ⟨p, by simp⟩
    · intro _; rfl
  | cons b bs ih =>
    cases p with
    | nil =>
      rw [startsWith_nil_file]
      constructor
      · intro h; exact Bool.noConfusion h
      · rintro ⟨rest, h⟩; exact List.noConfusion h
    | cons c cs =>
      rw [startsWith_cons_cons]
      by_cases hbc : b = c
      · subst hbc
        rw [if_pos rfl, ih]
        constructor
        · rintro ⟨rest, h⟩
          exact ⟨rest, by rw [List.cons_append, h]⟩
        · rintro ⟨rest, h⟩
          refine ⟨rest, ?_⟩
          simpa using h
      · rw [if_neg hbc]
        constructor
        · intro h; exact Bool.noConfusion h
        · rintro ⟨rest, h⟩
          rw [List.cons_append] at h
          injection h with h₁ _
          exact absurd h₁.symm hbc

theorem stripPrefixPath_eq_none (p base : FsPath) :
    stripPrefixPath p base = none ↔ FsPath.startsWith p base = false := by
  induction base generalizing p with
  | nil => simp [stripPrefixPath, FsPath.startsWith]
  | cons b bs ih =>
    cases p with
    | nil => simp [stripPrefixPath, FsPath.startsWith]
    | cons c cs =>
      simp only [stripPrefixPath, FsPath.startsWith]
      by_cases hbc : b = c
      · simp only [if_pos hbc, ih]
      · simp only [if_neg hbc]

/-- The state change a verdict causes in `verify_source_file`: `Missing`
inserts into the missing set, `Corrupt` into the corrupt set, and the other
verdicts leave the state untouched. -/
def applyV : Verdict → FsPath → VState → VState
  | Verdict.missing, file, st => { st with missing := insert file st.missing }
  | Verdict.corrupt, file, st => { st with corrupt := insert file st.corrupt }
  | _, _, st => st

/-- The state reached after classifying one file, with a failed
classification leaving the state unchanged (as in the Rust code, where no
set mutation precedes any `?`). -/
def stepState (fs : FS) (cfg : Config) (st : VState) (file : FsPath) : VState :=
  match verify_source_file fs cfg st file with
  | Except.ok (_, st', _) => st'
  | Except.error _ => st

theorem vsf_cases (fs : FS) (cfg : Config) (st : VState) (file : FsPath) :
    (∃ e, classify fs cfg file = Except.error e ∧
      verify_source_file fs cfg st file = Except.error e) ∨
    (∃ v log, classify fs cfg file = Except.ok v ∧
      verify_source_file fs cfg st file = Except.ok (v, applyV v file st, log)) := by
  unfold classify verify_source_file
  rcases hrel : relative_file_of cfg file with e | r <;> simp only [hrel]
  · exact Or.inl ⟨e, rfl, rfl⟩
  rcases hm : fs.metadata file with e | m <;> simp only [hm]
  · exact Or.inl ⟨VErr.ioError e, rfl, rfl⟩
  rcases hb : m.created with e | b <;> simp only [hb]
  · exact Or.inl ⟨VErr.ioError e, rfl, rfl⟩
  cases hif : fs.is_file (pathJoin cfg.backup_dir r)
  · simp only [Bool.false_eq_true, if_false]
    by_cases hle : b ≤ cfg.backup_time
    · simp only [if_pos hle]
      exact Or.inr ⟨Verdict.missing, [], rfl, by simp [applyV]⟩
    · simp only [if_neg hle]
      exact Or.inr ⟨Verdict.skipped, [], rfl, by simp [applyV]⟩
  simp only [if_true]
  rcases hcm : fs.metadata (pathJoin cfg.backup_dir r) with e | cm <;> simp only [hcm]
  · exact Or.inl ⟨VErr.ioError e, rfl, rfl⟩
  by_cases hmod : m.modified = cm.modified
  · simp only [if_pos hmod]
    rcases hs₁ : fs.sha256 file with e | d₁ <;> simp only [hs₁]
    · exact Or.inl ⟨VErr.ioError e, rfl, rfl⟩
    rcases hs₂ : fs.sha256 (pathJoin cfg.backup_dir r) with e | d₂ <;> simp only [hs₂]
    · exact Or.inl ⟨VErr.ioError e, rfl, rfl⟩
    by_cases hd : d₁ = d₂
    · simp only [if_pos hd]
      exact Or.inr ⟨Verdict.matched, [file, pathJoin cfg.backup_dir r], rfl, by simp [applyV]⟩
    · simp only [if_neg hd]
      exact Or.inr ⟨Verdict.corrupt, [file, pathJoin cfg.backup_dir r], rfl, by simp [applyV]⟩
  · simp only [if_neg hmod]
    exact Or.inr ⟨Verdict.matched, [], rfl, by simp [applyV]⟩

theorem stepState_eq (fs : FS) (cfg : Config) (st : VState) (file : FsPath) :
    stepState fs cfg st file =
      match classify fs cfg file with
      | Except.ok v => applyV v file st
      | Except.error _ => st := by
  rcases vsf_cases fs cfg st file with ⟨e, hc, hv⟩ | ⟨v, log, hc, hv⟩ <;>
    simp [stepState, hc, hv]

theorem applyV_comm (v w : Verdict) (p q : FsPath) (st : VState) :
    applyV v p (applyV w q st) = applyV w q (applyV v p st) := by
  cases v <;> cases w <;> simp [applyV, Finset.Insert.comm]

theorem stepState_comm (fs : FS) (cfg : Config) (st : VState) (p q : FsPath) :
    stepState fs cfg (stepState fs cfg st p) q =
      stepState fs cfg (stepState fs cfg st q) p := by
  simp only [stepState_eq]
  rcases hp : classify fs cfg p with e | v <;> rcases hq : classify fs cfg q with e' | w <;>
    simp only [hp, hq, applyV_comm]

theorem verify_nil (fs : FS) (cfg : Config) (st : VState) :
    verify fs cfg st [] = (st, Except.ok ()) := rfl

theorem verify_cons_error (fs : FS) (cfg : Config) (st : VState) (s : String)
    (rest : List (Except String FsPath)) :
    verify fs cfg st (Except.error s :: rest) = verify fs cfg st rest := rfl

theorem verify_cons_ok (fs : FS) (cfg : Config) (st : VState) (p : FsPath)
    (rest : List (Except String FsPath)) :
    verify fs cfg st (Except.ok p :: rest) =
      if fs.is_file p then
        if excluded cfg.excludes p then verify fs cfg st rest
        else
          match verify_source_file fs cfg st p with
          | Except.error e => (st, Except.error e)
          | Except.ok (_, st', _) => verify fs cfg st' rest
      else verify fs cfg st rest := rfl

theorem verify_cons_not_file (fs : FS) (cfg : Config) (st : VState) (p : FsPath)
    (rest : List (Except String FsPath)) (hf : fs.is_file p = false) :
    verify fs cfg st (Except.ok p :: rest) = verify fs cfg st rest := by
  rw [verify_cons_ok, if_neg (by simp [hf])]

theorem verify_cons_excluded (fs : FS) (cfg : Config) (st : VState) (p : FsPath)
    (rest : List (Except String FsPath)) (hf : fs.is_file p = true)
    (hex : excluded cfg.excludes p = true) :
    verify fs cfg st (Except.ok p :: rest) = verify fs cfg st rest := by
  rw [verify_cons_ok, if_pos hf, if_pos hex]

theorem verify_cons_live (fs : FS) (cfg : Config) (st : VState) (p : FsPath)
    (rest : List (Except String FsPath)) (hf : fs.is_file p = true)
    (hex : excluded cfg.excludes p = false) :
    verify fs cfg st (Except.ok p :: rest) =
      match verify_source_file fs cfg st p with
      | Except.error e => (st, Except.error e)
      | Except.ok (_, st', _) => verify fs cfg st' rest := by
  rw [verify_cons_ok, if_pos hf, if_neg (by simp [hex])]

/-- The walk entries that actually reach `verify_source_file`: readable
entries that are regular files and are not excluded. -/
def liveFiles (fs : FS) (cfg : Config) (entries : List (Except String FsPath)) : List FsPath :=
  entries.filterMap fun e =>
    match e with
    | Except.error _ => none
    | Except.ok p =>
      if fs.is_file p then (if excluded cfg.excludes p then none else some p) else none

theorem verify_ok_foldl (fs : FS) (cfg : Config) :
    ∀ (entries : List (Except String FsPath)) (st : VState),
      (verify fs cfg st entries).2 = Except.ok () →
      (verify fs cfg st entries).1 = (liveFiles fs cfg entries).foldl (stepState fs cfg) st := by
  intro entries
  induction entries with
  | nil => intro st _; rfl
  | cons e rest ih =>
    intro st h
    cases e with
    | error s =>
      rw [verify_cons_error] at h ⊢
      exact ih st h
    | ok p =>
      cases hf : fs.is_file p with
      | false =>
        rw [verify_cons_not_file fs cfg st p rest hf] at h ⊢
        have : liveFiles fs cfg (Except.ok p :: rest) = liveFiles fs cfg rest := by
          simp [liveFiles, List.filterMap_cons, hf]
        rw [this]
        exact ih st h
      | true =>
        cases hex : excluded cfg.excludes p with
        | true =>
          rw [verify_cons_excluded fs cfg st p rest hf hex] at h ⊢
          have : liveFiles fs cfg (Except.ok p :: rest) = liveFiles fs cfg rest := by
            simp [liveFiles, List.filterMap_cons, hf, hex]
          rw [this]
          exact ih st h
        | false =>
          rw [verify_cons_live fs cfg st p rest hf hex] at h ⊢
          have hlf : liveFiles fs cfg (Except.ok p :: rest) = p :: liveFiles fs cfg rest := by
            simp [liveFiles, List.filterMap_cons, hf, hex]
          rw [hlf]
          cases hv : verify_source_file fs cfg st p with
          | error e =>
            rw [hv] at h
            exact absurd h (by simp)
          | ok t =>
            rcases t with ⟨v, st', log⟩
            rw [hv] at h
            have hstep : stepState fs cfg st p = st' := by
              simp [stepState, hv]
            rw [List.foldl_cons, hstep]
            exact ih st' h

/-- Every path in the missing set was classified `Missing`, and every path
in the corrupt set was classified `Corrupt`, under the run's fixed
filesystem view. This is the inductive invariant behind the disjointness of
the two sets. -/
def stateConsistent (fs : FS) (cfg : Config) (st : VState) : Prop :=
  (∀ p ∈ st.missing, classify fs cfg p = Except.ok Verdict.missing) ∧
  (∀ p ∈ st.corrupt, classify fs cfg p = Except.ok Verdict.corrupt)

theorem consistent_step (fs : FS) (cfg : Config) (st : VState) (p : FsPath)
    (h : stateConsistent fs cfg st) :
    stateConsistent fs cfg (stepState fs cfg st p) := by
  rcases h with ⟨hm, hc⟩
  rw [stepState_eq]
  rcases hcl : classify fs cfg p with e | v
  · exact ⟨hm, hc⟩
  cases v with
  | matched => exact ⟨hm, hc⟩
  | skipped => exact ⟨hm, hc⟩
  | missing =>
    refine ⟨?_, hc⟩
    intro q hq
    rcases Finset.mem_insert.mp hq with hq | hq
    · rw [hq]; exact hcl
    · exact hm q hq
  | corrupt =>
    refine ⟨hm, ?_⟩
    intro q hq
    rcases Finset.mem_insert.mp hq with hq | hq
    · rw [hq]; exact hcl
    · exact hc q hq

theorem verify_preserves_consistent (fs : FS) (cfg : Config) :
    ∀ (entries : List (Except String FsPath)) (st : VState),
      stateConsistent fs cfg st →
      stateConsistent fs cfg (verify fs cfg st entries).1 := by
  intro entries
  induction entries with
  | nil => intro st h; exact h
  | cons e rest ih =>
    intro st h
    cases e with
    | error s => rw [verify_cons_error]; exact ih st h
    | ok p =>
      cases hf : fs.is_file p with
      | false =>
        rw [verify_cons_not_file fs cfg st p rest hf]
        exact ih st h
      | true =>
        cases hex : excluded cfg.excludes p with
        | true =>
          rw [verify_cons_excluded fs cfg st p rest hf hex]
          exact ih st h
        | false =>
          rw [verify_cons_live fs cfg st p rest hf hex]
          cases hv : verify_source_file fs cfg st p with
          | error e => exact h
          | ok t =>
            rcases t with ⟨v, st', log⟩
            have hstep : stepState fs cfg st p = st' := by
              simp [stepState, hv]
            exact ih st' (hstep ▸ consistent_step fs cfg st p h)

theorem consistent_disjoint (fs : FS) (cfg : Config) (st : VState)
    (h : stateConsistent fs cfg st) : Disjoint st.missing st.corrupt := by
  rw [Finset.disjoint_left]
  intro p hpm hpc
  have h₁ := h.1 p hpm
  have h₂ := h.2 p hpc
  rw [h₁] at h₂
  injection h₂ with h₃
  exact Verdict.noConfusion h₃

theorem verify_all_excluded (fs : FS) (cfg : Config)
    (hall : ∀ p, excluded cfg.excludes p = true) :
    ∀ (entries : List (Except String FsPath)) (st : VState),
      verify fs cfg st entries = (st, Except.ok ()) := by
  intro entries
  induction entries with
  | nil => intro st; rfl
  | cons e rest ih =>
    intro st
    cases e with
    | error s => rw [verify_cons_error]; exact ih st
    | ok p =>
      cases hf : fs.is_file p with
      | false => rw [verify_cons_not_file fs cfg st p rest hf]; exact ih st
      | true => rw [verify_cons_excluded fs cfg st p rest hf (hall p)]; exact ih st

/-! Concrete fixtures used to instantiate the theorems below. -/

/-- A filesystem with no regular files and failing metadata and hash calls. -/
def fs0 : FS := ⟨fun _ => false, fun _ => Except.error "io", fun _ => Except.error "io"⟩

/-- A filesystem where every path is a regular file but metadata reads fail. -/
def fs1 : FS := ⟨fun _ => true, fun _ => Except.error "io", fun _ => Except.error "io"⟩

/-- A filesystem where every path is a regular file with identical metadata
and identical content digests. -/
def fs2 : FS :=
  ⟨fun _ => true, fun _ => Except.ok ⟨0, Except.ok 0⟩, fun _ => Except.ok 0⟩

/-- A filesystem where every path is a regular file with identical metadata,
but the live file `a` has a digest different from every other path's. -/
def fs3 : FS :=
  ⟨fun _ => true, fun _ => Except.ok ⟨5, Except.ok 3⟩,
   fun p => Except.ok (if p = [Component.name "a"] then 1 else 2)⟩

/-- A filesystem where every path is a regular file and the live file `a`
has a modification time different from every other path's; hashing fails,
which no mtime-mismatch run should ever notice. -/
def fs4 : FS :=
  ⟨fun _ => true,
   fun p => Except.ok ⟨if p = [Component.name "a"] then 1 else 2, Except.ok 0⟩,
   fun _ => Except.error "io"⟩

/-- A filesystem with no regular files, readable metadata, and creation
time 10 for every path. -/
def fs5 : FS :=
  ⟨fun _ => false, fun _ => Except.ok ⟨0, Except.ok 10⟩, fun _ => Except.error "io"⟩

/-- A configuration with an empty backup directory path, backup time 0, no
excludes and absolute-path mode. -/
def cfg0 : Config := ⟨[], 0, [], [], false⟩

/-- Like `cfg0` but restoring under the directory `bak`. -/
def cfgB : Config := ⟨[Component.name "bak"], 0, [], [], false⟩

/-- A relative-path configuration whose source root is the directory `src`. -/
def cfgR : Config := ⟨[], 0, [Component.name "src"], [], true⟩

/-- Like `cfg0` but with a single empty exclude pattern, as a blank line in
the excludes file produces. -/
def cfgE : Config := ⟨[], 0, [], [""], false⟩

/-! The claimed properties. -/

/-- C1: for a live file whose counterpart exists and whose modification time
equals the counterpart's, both files are hashed (the hash log lists exactly
the two paths), and the verdict is `Matched` with no accumulation when the
digests agree, `Corrupt` with the file added to the corrupt set when they
differ. -/
theorem verify_source_file_equal_mtime (fs : FS) (cfg : Config) (st : VState)
    (file cp : FsPath) (m cm : Meta) (b : Int) (d₁ d₂ : Nat)
    (hcp : counterpart_of cfg file = Except.ok cp)
    (hm : fs.metadata file = Except.ok m)
    (hb : m.created = Except.ok b)
    (hf : fs.is_file cp = true)
    (hcm : fs.metadata cp = Except.ok cm)
    (hmod : m.modified = cm.modified)
    (hs₁ : fs.sha256 file = Except.ok d₁)
    (hs₂ : fs.sha256 cp = Except.ok d₂) :
    verify_source_file fs cfg st file =
      if d₁ = d₂ then Except.ok (Verdict.matched, st, [file, cp])
      else Except.ok (Verdict.corrupt,
        { st with corrupt := insert file st.corrupt }, [file, cp]) := by
  have hrel : ∃ r, relative_file_of cfg file = Except.ok r ∧ cp = pathJoin cfg.backup_dir r := by
    unfold counterpart_of at hcp
    rcases hr : relative_file_of cfg file with e | r
    · rw [hr] at hcp; cases hcp
    · rw [hr] at hcp; injection hcp with hcp; exact ⟨r, rfl, hcp.symm⟩
  rcases hrel with ⟨r, hr, hcpr⟩
  subst hcpr
  unfold verify_source_file
  simp only [hr, hm, hb, hf, if_true, hcm, hmod, hs₁, hs₂, eq_self_iff_true]

/-- C1 witness: under `fs3` and `cfgB`, the file `a` and its counterpart
`bak/a` have equal modification times but different digests, so the file is
classified `Corrupt`, both paths are hashed, and `a` enters the corrupt set. -/
theorem verify_source_file_equal_mtime_witness :
    verify_source_file fs3 cfgB ⟨∅, ∅⟩ [Component.name "a"] =
      Except.ok (Verdict.corrupt,
        { missing := ∅, corrupt := insert [Component.name "a"] (∅ : Finset FsPath) },
        [[Component.name "a"], [Component.name "bak", Component.name "a"]]) := by
  have h := verify_source_file_equal_mtime fs3 cfgB ⟨∅, ∅⟩
    [Component.name "a"] [Component.name "bak", Component.name "a"]
    ⟨5, Except.ok 3⟩ ⟨5, Except.ok 3⟩ 3 1 2
    (by decide) (by decide) (by decide) (by decide) (by decide) (by decide)
    (by decide) (by decide)
  rw [if_neg (by decide)] at h
  exact h

/-- C2: for a live file whose counterpart exists but whose modification time
differs from the counterpart's, the verdict is `Matched` regardless of
content: the hash log is empty (the theorem holds for every filesystem, in
particular ones whose hash calls fail) and the state is unchanged. -/
theorem verify_source_file_mtime_differs (fs : FS) (cfg : Config) (st : VState)
    (file cp : FsPath) (m cm : Meta) (b : Int)
    (hcp : counterpart_of cfg file = Except.ok cp)
    (hm : fs.metadata file = Except.ok m)
    (hb : m.created = Except.ok b)
    (hf : fs.is_file cp = true)
    (hcm : fs.metadata cp = Except.ok cm)
    (hmod : m.modified ≠ cm.modified) :
    verify_source_file fs cfg st file = Except.ok (Verdict.matched, st, []) := by
  have hrel : ∃ r, relative_file_of cfg file = Except.ok r ∧ cp = pathJoin cfg.backup_dir r := by
    unfold counterpart_of at hcp
    rcases hr : relative_file_of cfg file with e | r
    · rw [hr] at hcp; cases hcp
    · rw [hr] at hcp; injection hcp with hcp; exact ⟨r, rfl, hcp.symm⟩
  rcases hrel with ⟨r, hr, hcpr⟩
  subst hcpr
  unfold verify_source_file
  simp only [hr, hm, hb, hf, if_true, hcm, if_neg hmod]

/-- C2 witness: under `fs4` and `cfgB`, the file `a` and its counterpart
`bak/a` have different modification times; the verdict is `Matched`, nothing
is hashed (hashing would fail in `fs4`), and the state is unchanged. -/
theorem verify_source_file_mtime_differs_witness :
    verify_source_file fs4 cfgB ⟨∅, ∅⟩ [Component.name "a"] =
      Except.ok (Verdict.matched, ⟨∅, ∅⟩, []) :=
  verify_source_file_mtime_differs fs4 cfgB ⟨∅, ∅⟩
    [Component.name "a"] [Component.name "bak", Component.name "a"]
    ⟨1, Except.ok 0⟩ ⟨2, Except.ok 0⟩ 0
    (by decide) (by decide) (by decide) (by decide) (by decide) (by decide)

/-- C3: for a live file with no counterpart at the computed restored path,
the verdict is `Missing` (the path enters the missing set) exactly when the
file's creation time is at or before the backup's creation timestamp;
otherwise the verdict is `Skipped` and nothing is added to either set. -/
theorem verify_source_file_no_counterpart (fs : FS) (cfg : Config) (st : VState)
    (file cp : FsPath) (m : Meta) (b : Int)
    (hcp : counterpart_of cfg file = Except.ok cp)
    (hm : fs.metadata file = Except.ok m)
    (hb : m.created = Except.ok b)
    (hf : fs.is_file cp = false) :
    verify_source_file fs cfg st file =
      if b ≤ cfg.backup_time then
        Except.ok (Verdict.missing,
          { st with missing := insert file st.missing }, [])
      else Except.ok (Verdict.skipped, st, []) := by
  have hrel : ∃ r, relative_file_of cfg file = Except.ok r ∧ cp = pathJoin cfg.backup_dir r := by
    unfold counterpart_of at hcp
    rcases hr : relative_file_of cfg file with e | r
    · rw [hr] at hcp; cases hcp
    · rw [hr] at hcp; injection hcp with hcp; exact ⟨r, rfl, hcp.symm⟩
  rcases hrel with ⟨r, hr, hcpr⟩
  subst hcpr
  unfold verify_source_file
  simp only [hr, hm, hb, hf, Bool.false_eq_true, if_false]

/-- C3 witness: under `fs5` (no counterpart anywhere, creation time 10) and
`cfgB` (backup time 0), the file `a` was created after the backup, so it is
classified `Skipped` and the state is unchanged. -/
theorem verify_source_file_no_counterpart_witness :
    verify_source_file fs5 cfgB ⟨∅, ∅⟩ [Component.name "a"] =
      Except.ok (Verdict.skipped, ⟨∅, ∅⟩, []) := by
  have h := verify_source_file_no_counterpart fs5 cfgB ⟨∅, ∅⟩
    [Component.name "a"] [Component.name "bak", Component.name "a"]
    ⟨0, Except.ok 10⟩ 10
    (by decide) (by decide) (by decide) (by decide)
  rw [if_neg (by decide)] at h
  exact h

/-- C4: a path is excluded exactly when some configured pattern, parsed as a
path, is a component-wise prefix of it (equality being the empty-suffix
case); a path sharing only a string prefix with a pattern, without a
component boundary, is not excluded, as the concrete `/a/exclude` versus
`/a/exclude_this` instance shows. -/
theorem excluded_iff_pattern_nested (excludes : List String) (p : FsPath) :
    (excluded excludes p = true ↔
      ∃ e ∈ excludes, ∃ rest, p = parsePath e ++ rest) ∧
    excluded ["/a/exclude"] (parsePath "/a/exclude") = true ∧
    excluded ["/a/exclude"] (parsePath "/a/exclude/sub") = true ∧
    excluded ["/a/exclude"] (parsePath "/a/exclude_this") = false := by
  refine ⟨?_, by decide, by decide, by decide⟩
  unfold excluded
  rw [List.any_eq_true]
  constructor
  · rintro ⟨e, he, hs⟩
    exact ⟨e, he, (startsWith_iff_append p (parsePath e)).mp hs⟩
  · rintro ⟨e, he, hrest⟩
    exact ⟨e, he, (startsWith_iff_append p (parsePath e)).mpr hrest⟩

/-- C4 witness: the characterisation applied at the pattern `/a/exclude`:
the sibling `/a/exclude_this` is not excluded. -/
theorem excluded_iff_pattern_nested_witness :
    excluded ["/a/exclude"] (parsePath "/a/exclude_this") = false :=
  (excluded_iff_pattern_nested [] []).2.2.2

/-- C5: with relative-path mode enabled and a live file not under the
configured source root, classification fails with `pathError` (the modelled
outcome of the `expect("Could not strip prefix")` failure) rather than
producing any verdict. -/
theorem verify_source_file_path_error (fs : FS) (cfg : Config) (st : VState)
    (file : FsPath)
    (hrp : cfg.relative_path = true)
    (hout : FsPath.startsWith file cfg.source_dir = false) :
    verify_source_file fs cfg st file = Except.error VErr.pathError := by
  have hnone : stripPrefixPath file cfg.source_dir = none :=
    (stripPrefixPath_eq_none file cfg.source_dir).mpr hout
  unfold verify_source_file relative_file_of
  simp only [hrp, if_true, hnone]

/-- C5 witness: under the relative-path configuration `cfgR` with source
root `src`, the file `a` is not under the source root and classification
fails with `pathError`. -/
theorem verify_source_file_path_error_witness :
    verify_source_file fs0 cfgR ⟨∅, ∅⟩ [Component.name "a"] =
      Except.error VErr.pathError :=
  verify_source_file_path_error fs0 cfgR ⟨∅, ∅⟩ [Component.name "a"]
    (by decide) (by decide)

/-- C6: the verdict succeeds exactly when both accumulated sets are empty;
when either set is non-empty the result is the single aggregate failure, and
the warned log enumerates every missing and every corrupt path. -/
theorem verdict_iff_empty (st : VState) :
    ((verdict st).2 = Except.ok () ↔ st.missing = ∅ ∧ st.corrupt = ∅) ∧
    (∀ p ∈ st.missing, p ∈ (verdict st).1) ∧
    (∀ p ∈ st.corrupt, p ∈ (verdict st).1) ∧
    ((st.missing ≠ ∅ ∨ st.corrupt ≠ ∅) →
      (verdict st).2 = Except.error "Verification failed") := by
  by_cases h₁ : st.missing = ∅ <;> by_cases h₂ : st.corrupt = ∅ <;>
    simp [verdict, h₁, h₂, Finset.mem_val] <;>
    try exact ⟨fun p hp => Or.inl hp, fun p hp => Or.inr hp⟩

/-- C6 witness: a state whose missing set holds the single path `a` fails
with the aggregate error, and `a` is enumerated in the warned log. -/
theorem verdict_iff_empty_witness :
    ([Component.name "a"] : FsPath) ∈
      (verdict ⟨{[Component.name "a"]}, ∅⟩).1 ∧
    (verdict ⟨{[Component.name "a"]}, ∅⟩).2 = Except.error "Verification failed" :=
  ⟨(verdict_iff_empty ⟨{[Component.name "a"]}, ∅⟩).2.1 [Component.name "a"] (by decide),
   (verdict_iff_empty ⟨{[Component.name "a"]}, ∅⟩).2.2.2 (Or.inl (by decide))⟩

/-- C7 counterexample: a walk-level error does not abort the run. With no
other entries, a run whose walk stream holds exactly one erroneous entry
returns success with unchanged state, refuting the claim that an I/O error
while traversing fails the whole run. -/
theorem verify_walk_error_cex :
    verify fs0 cfg0 ⟨∅, ∅⟩ [Except.error "walk error"] = (⟨∅, ∅⟩, Except.ok ()) := rfl

/-- C7 as amended: erroneous walk entries are silently dropped
(`filter_map(|e| e.ok())`), leaving the result of the run unchanged, while
an I/O error raised when classifying an individual reached file propagates
and aborts the run with that error. -/
theorem verify_walk_error_skipped (fs : FS) (cfg : Config) (st : VState) :
    (∀ s rest, verify fs cfg st (Except.error s :: rest) = verify fs cfg st rest) ∧
    (∀ p rest e, fs.is_file p = true → excluded cfg.excludes p = false →
      verify_source_file fs cfg st p = Except.error e →
      verify fs cfg st (Except.ok p :: rest) = (st, Except.error e)) := by
  constructor
  · intro s rest; rfl
  · intro p rest e hf hex hv
    rw [verify_cons_live fs cfg st p rest hf hex, hv]

/-- C7 amended witness: under `fs1` (metadata reads fail), a walk error is
skipped without effect, and classifying the reached file `a` aborts the run
with the propagated I/O error. -/
theorem verify_walk_error_skipped_witness :
    verify fs1 cfg0 ⟨∅, ∅⟩ [Except.error "boom"] = verify fs1 cfg0 ⟨∅, ∅⟩ [] ∧
    verify fs1 cfg0 ⟨∅, ∅⟩ [Except.ok [Component.name "a"]] =
      (⟨∅, ∅⟩, Except.error (VErr.ioError "io")) :=
  ⟨(verify_walk_error_skipped fs1 cfg0 ⟨∅, ∅⟩).1 "boom" [],
   (verify_walk_error_skipped fs1 cfg0 ⟨∅, ∅⟩).2 [Component.name "a"] []
     (VErr.ioError "io") (by decide) (by decide) (by decide)⟩

/-- C8: the accumulated result is independent of traversal order: two runs
over permuted walk streams that both complete successfully reach identical
missing and corrupt sets. -/
theorem verify_order_independent (fs : FS) (cfg : Config) (st : VState)
    (e₁ e₂ : List (Except String FsPath)) (hperm : List.Perm e₁ e₂)
    (h₁ : (verify fs cfg st e₁).2 = Except.ok ())
    (h₂ : (verify fs cfg st e₂).2 = Except.ok ()) :
    (verify fs cfg st e₁).1 = (verify fs cfg st e₂).1 := by
  rw [verify_ok_foldl fs cfg e₁ st h₁, verify_ok_foldl fs cfg e₂ st h₂]
  have hp : List.Perm (liveFiles fs cfg e₁) (liveFiles fs cfg e₂) :=
    List.Perm.filterMap _ hperm
  exact hp.foldl_eq' (fun x _ y _ z => stepState_comm fs cfg z x y) st

/-- C8 witness: swapping the two entries `a`, `b` of a successful run under
`fs2` yields the same final state. -/
theorem verify_order_independent_witness :
    (verify fs2 cfg0 ⟨∅, ∅⟩
        [Except.ok [Component.name "a"], Except.ok [Component.name "b"]]).1 =
      (verify fs2 cfg0 ⟨∅, ∅⟩
        [Except.ok [Component.name "b"], Except.ok [Component.name "a"]]).1 :=
  verify_order_independent fs2 cfg0 ⟨∅, ∅⟩ _ _
    (List.Perm.swap (Except.ok [Component.name "b"])
      (Except.ok [Component.name "a"]) [])
    (by decide) (by decide)

/-- C9: starting from empty sets, any sequence of walk entries leaves the
missing and corrupt sets disjoint: a path is never in both. -/
theorem verify_sets_disjoint (fs : FS) (cfg : Config)
    (entries : List (Except String FsPath)) :
    Disjoint ((verify fs cfg ⟨∅, ∅⟩ entries).1).missing
      ((verify fs cfg ⟨∅, ∅⟩ entries).1).corrupt :=
  consistent_disjoint fs cfg _
    (verify_preserves_consistent fs cfg entries ⟨∅, ∅⟩
      ⟨fun p hp => absurd hp (Finset.not_mem_empty p),
       fun p hp => absurd hp (Finset.not_mem_empty p)⟩)

/-- C10: a blank line in the excludes file loads as the empty pattern (shown
on concrete contents), the empty pattern makes every path excluded, hence no
entry of any walk is verified, the state never changes, and the run's
verdict on the empty state is success. -/
theorem blank_exclude_excludes_everything (cfg : Config) (fs : FS)
    (entries : List (Except String FsPath)) (st : VState)
    (h : "" ∈ cfg.excludes) :
    load_excludes (ReadResult.ok "a\n\nb") = Except.ok ["a", "", "b"] ∧
    (∀ p, excluded cfg.excludes p = true) ∧
    verify fs cfg st entries = (st, Except.ok ()) ∧
    (verdict ⟨∅, ∅⟩).2 = Except.ok () := by
  have hall : ∀ p, excluded cfg.excludes p = true := by
    intro p
    have hp : parsePath "" = [] := by decide
    unfold excluded
    rw [List.any_eq_true]
    exact ⟨"", h, by rw [hp]; exact startsWith_nil_base p⟩
  exact ⟨by decide, hall, verify_all_excluded fs cfg hall entries st, by decide⟩

/-- C10 witness: under `cfgE`, whose exclude list is the single empty
pattern, a run leaves the state unchanged and succeeds, and the root path is
excluded. -/
theorem blank_exclude_excludes_everything_witness :
    verify fs0 cfgE ⟨∅, ∅⟩ [] = (⟨∅, ∅⟩, Except.ok ()) ∧
    excluded cfgE.excludes [Component.root] = true :=
  ⟨(blank_exclude_excludes_everything cfgE fs0 [] ⟨∅, ∅⟩ (by decide)).2.2.1,
   (blank_exclude_excludes_everything cfgE fs0 [] ⟨∅, ∅⟩ (by decide)).2.1
     [Component.root]⟩

end Bacify
